import Mathlib

/-!
# Verification of the resource query planner and fallback retriever

Shallow embedding of `src/lib/resourceSearch.ts` (`RESOURCE_MAP`,
`buildQueryAttempts`, `runSmartSearch`) from the book-finder repository,
together with proofs of the specified properties.

JavaScript strings are modelled as Lean `String`s; the string primitives the
source relies on (`encodeURIComponent`, `decodeURIComponent`,
`String.prototype.split` with a one-character separator, `trim`, the
`^subject:` replace, and `URLSearchParams` serialization) are modelled
explicitly below so that every step of the URL construction is executable and
provable.  The network is modelled as an environment assigning to every
attempt index the result of its `fetch`.
-/

namespace BookFinder

/-! ## String primitives used by the source -/

/-- Hex digit characters, uppercase, as produced by `encodeURIComponent` and
`URLSearchParams` percent-escapes. -/
def hexDig (n : Nat) : Char :=
  ['0', '1', '2', '3', '4', '5', '6', '7', '8', '9',
   'A', 'B', 'C', 'D', 'E', 'F'].getD n '0'

/-- Value of one hex digit character (upper or lower case). -/
def hexVal (c : Char) : Option Nat :=
  if 48 ≤ c.toNat ∧ c.toNat ≤ 57 then some (c.toNat - 48)
  else if 65 ≤ c.toNat ∧ c.toNat ≤ 70 then some (c.toNat - 55)
  else if 97 ≤ c.toNat ∧ c.toNat ≤ 102 then some (c.toNat - 87)
  else none

/-- UTF-8 encoding of one character, as a list of byte values. -/
def charUtf8 (c : Char) : List Nat :=
  if c.toNat < 128 then [c.toNat]
  else if c.toNat < 2048 then
    [192 + c.toNat / 64, 128 + c.toNat % 64]
  else if c.toNat < 65536 then
    [224 + c.toNat / 4096, 128 + c.toNat / 64 % 64, 128 + c.toNat % 64]
  else
    [240 + c.toNat / 262144, 128 + c.toNat / 4096 % 64, 128 + c.toNat / 64 % 64,
     128 + c.toNat % 64]

/-- Two-byte UTF-8 sequences: continuation byte, overlong check. -/
def utf8Cont2 (b0 : Nat) : List Nat → Option (Char × List Nat)
  | b1 :: rest2 =>
    if 128 ≤ b1 ∧ b1 < 192 then
      if (b0 - 192) * 64 + (b1 - 128) < 128 then none
      else some (Char.ofNat ((b0 - 192) * 64 + (b1 - 128)), rest2)
    else none
  | [] => none

/-- Three-byte UTF-8 sequences: continuation bytes, overlong and surrogate
checks. -/
def utf8Cont3 (b0 : Nat) : List Nat → Option (Char × List Nat)
  | b1 :: b2 :: rest2 =>
    if (128 ≤ b1 ∧ b1 < 192) ∧ (128 ≤ b2 ∧ b2 < 192) then
      if (b0 - 224) * 4096 + (b1 - 128) * 64 + (b2 - 128) < 2048 ∨
          (55296 ≤ (b0 - 224) * 4096 + (b1 - 128) * 64 + (b2 - 128) ∧
           (b0 - 224) * 4096 + (b1 - 128) * 64 + (b2 - 128) < 57344) then none
      else some (Char.ofNat ((b0 - 224) * 4096 + (b1 - 128) * 64 + (b2 - 128)), rest2)
    else none
  | _ => none

/-- Four-byte UTF-8 sequences: continuation bytes, overlong and range
checks. -/
def utf8Cont4 (b0 : Nat) : List Nat → Option (Char × List Nat)
  | b1 :: b2 :: b3 :: rest2 =>
    if (128 ≤ b1 ∧ b1 < 192) ∧ (128 ≤ b2 ∧ b2 < 192) ∧ (128 ≤ b3 ∧ b3 < 192) then
      if (b0 - 240) * 262144 + (b1 - 128) * 4096 + (b2 - 128) * 64 + (b3 - 128) < 65536 ∨
          1114112 ≤ (b0 - 240) * 262144 + (b1 - 128) * 4096 + (b2 - 128) * 64 + (b3 - 128)
      then none
      else some
        (Char.ofNat ((b0 - 240) * 262144 + (b1 - 128) * 4096 + (b2 - 128) * 64 + (b3 - 128)),
         rest2)
    else none
  | _ => none

/-- Decode one UTF-8 sequence whose lead byte is `b0` and whose following
bytes start `rest`; returns the character and the unconsumed bytes, or
`none` on malformed input. -/
def utf8Step (b0 : Nat) (rest : List Nat) : Option (Char × List Nat) :=
  if b0 < 128 then some (Char.ofNat b0, rest)
  else if b0 < 192 then none
  else if b0 < 224 then utf8Cont2 b0 rest
  else if b0 < 240 then utf8Cont3 b0 rest
  else if b0 < 248 then utf8Cont4 b0 rest
  else none

/-- Fuel-driven UTF-8 decoding loop; the fuel only serves to make the
recursion structural and is irrelevant as soon as it is at least the number
of bytes (`utf8DecodeFuel_mono`). -/
def utf8DecodeFuel : Nat → List Nat → Option (List Char)
  | _, [] => some []
  | 0, _ :: _ => none
  | fuel + 1, b0 :: rest =>
    (utf8Step b0 rest).bind (fun p => (utf8DecodeFuel fuel p.2).map (fun cs => p.1 :: cs))

/-- UTF-8 decoding of a byte-value list; `none` on malformed input. -/
def utf8DecodeAll (bs : List Nat) : Option (List Char) :=
  utf8DecodeFuel bs.length bs

/-- Characters that `encodeURIComponent` leaves unescaped:
`A`-`Z`, `a`-`z`, `0`-`9` and `- _ . ! ~ * ' ( )` (codes 45, 95, 46, 33,
126, 42, 39, 40, 41). -/
def isUnreservedEnc (c : Char) : Bool :=
  let n := c.toNat
  (65 ≤ n && n ≤ 90) || (97 ≤ n && n ≤ 122) || (48 ≤ n && n ≤ 57) ||
  n == 45 || n == 95 || n == 46 || n == 33 || n == 126 ||
  n == 42 || n == 39 || n == 40 || n == 41

/-- Percent-escape of a byte list: each byte becomes `%` followed by two
uppercase hex digits. -/
def pctChars (bs : List Nat) : List Char :=
  bs.flatMap (fun b => ['%', hexDig (b / 16), hexDig (b % 16)])

/-- Character-level body of `encodeURIComponent`: unreserved characters pass
through, every other character is replaced by the percent-escapes of its
UTF-8 bytes. -/
def encodeUriChars (l : List Char) : List Char :=
  l.flatMap (fun c => if isUnreservedEnc c then [c] else pctChars (charUtf8 c))

/-- Model of JavaScript `encodeURIComponent`. -/
def encodeURIComponent (s : String) : String :=
  String.mk (encodeUriChars s.data)

/-- Parse the two hex digits following a `%`; returns the byte value and the
unconsumed characters. -/
def pctStep : List Char → Option (Nat × List Char)
  | h1 :: h2 :: rest2 =>
    (hexVal h1).bind (fun a => (hexVal h2).bind (fun b => some (16 * a + b, rest2)))
  | _ => none

/-- Fuel-driven unescaping loop; the fuel only serves to make the recursion
structural and is irrelevant as soon as it is at least the number of
characters (`unescFuel_mono`). -/
def unescFuel : Nat → List Char → Option (List Nat)
  | _, [] => some []
  | 0, _ :: _ => none
  | fuel + 1, c :: rest =>
    if c = '%' then
      (pctStep rest).bind (fun p => (unescFuel fuel p.2).map (fun bs => p.1 :: bs))
    else (unescFuel fuel rest).map (fun bs => charUtf8 c ++ bs)

/-- First phase of `decodeURIComponent`: turn the character sequence into a
byte sequence, replacing each `%HH` escape by the byte `HH` and every other
character by its UTF-8 bytes; `none` on a malformed escape. -/
def unescapeChars (l : List Char) : Option (List Nat) :=
  unescFuel l.length l

/-- Character-level body of `decodeURIComponent`: unescape to bytes, then
re-decode the bytes as UTF-8.  On the well-formed strings this program
feeds it (outputs of `encodeURIComponent` glued to plain text) this agrees
with JavaScript `decodeURIComponent`. -/
def decodeUriChars (l : List Char) : Option (List Char) :=
  (unescapeChars l).bind utf8DecodeAll

/-- Model of JavaScript `decodeURIComponent`.  JavaScript throws `URIError`
on malformed input; every call site in the source decodes a string built by
`encodeURIComponent`, where decoding always succeeds (see
`decodeUri_encodeUri`), so the fallback branch is unreachable there. -/
def decodeURIComponent (s : String) : String :=
  match decodeUriChars s.data with
  | some l => String.mk l
  | none => s

/-- Model of JavaScript `String.prototype.split` with a one-character
separator: accumulator-based scan producing the (possibly empty) pieces
between separator occurrences. -/
def splitCharAux (sep : Char) : List Char → List Char → List (List Char)
  | [], acc => [acc.reverse]
  | c :: rest, acc =>
    if c = sep then acc.reverse :: splitCharAux sep rest []
    else splitCharAux sep rest (c :: acc)

/-- The source's `.split("+")`. -/
def jsSplitPlus (s : String) : List String :=
  (splitCharAux '+' s.data []).map String.mk

/-- The source's `p.replace(/^subject:/, "")`: remove one leading
`subject:` if present. -/
def stripSubjectTag (p : String) : String :=
  match p.data with
  | 's' :: 'u' :: 'b' :: 'j' :: 'e' :: 'c' :: 't' :: ':' :: rest => String.mk rest
  | _ => p

/-- Model of JavaScript `String.prototype.trim`: drop leading and trailing
whitespace characters. -/
def jsTrim (s : String) : String :=
  String.mk (((s.data.dropWhile Char.isWhitespace).reverse.dropWhile
    Char.isWhitespace).reverse)

/-- Bytes that `URLSearchParams` serialization leaves unescaped:
`A`-`Z`, `a`-`z`, `0`-`9` and `* - . _`. -/
def isUnreservedForm (b : Nat) : Bool :=
  (65 ≤ b && b ≤ 90) || (97 ≤ b && b ≤ 122) || (48 ≤ b && b ≤ 57) ||
  b == 42 || b == 45 || b == 46 || b == 95

/-- The `application/x-www-form-urlencoded` encoding of a string, as performed
by `URLSearchParams.toString()`: per UTF-8 byte, unreserved bytes pass
through, space becomes `+`, everything else is percent-escaped. -/
def formEncode (s : String) : String :=
  String.mk ((s.data.flatMap charUtf8).flatMap (fun b =>
    if isUnreservedForm b then [Char.ofNat b]
    else if b == 32 then ['+']
    else ['%', hexDig (b / 16), hexDig (b % 16)]))

/-- Serialization `URLSearchParams.toString()`: `key=value` pairs joined by `&`, both
sides form-encoded. -/
def serializeParams (ps : List (String × String)) : String :=
  String.intercalate "&" (ps.map (fun kv => formEncode kv.1 ++ "=" ++ formEncode kv.2))

/-! ## Data model (`src/lib/resourceSearch.ts`) -/

/-- The type `ResourceTypeKey`: the enumerated resource categories. -/
inductive ResourceTypeKey where
  | study_guide
  | textbook
  | lecture_notes
  | past_papers
  | problem_sets
  | reference
  | open_textbook
  | case_studies
deriving DecidableEq, Repr

/-- The type `ResourceMapEntry`: preferred subject slugs and full-text keywords for
one category. -/
structure ResourceMapEntry where
  slugs : List String
  keywords : List String
deriving DecidableEq, Repr

/-- The table `RESOURCE_MAP`: the static category profile table, transcribed from the
source. -/
def RESOURCE_MAP : ResourceTypeKey → ResourceMapEntry
  | .study_guide =>
    { slugs := ["study guides", "study-guides"],
      keywords := ["study guide", "revision guide", "exam guide", "study notes"] }
  | .textbook =>
    { slugs := ["textbooks", "text-book", "text books"],
      keywords := ["textbook", "coursebook", "introduction to", "for students"] }
  | .lecture_notes =>
    { slugs := ["lecture notes", "lecture-notes"],
      keywords := ["lecture notes", "class notes", "course notes", "lecture"] }
  | .past_papers =>
    { slugs := ["past papers", "exam papers", "previous year papers"],
      keywords := ["past papers", "exam paper", "question paper", "previous year paper"] }
  | .problem_sets =>
    { slugs := ["problem sets", "exercise problems"],
      keywords := ["problem set", "exercise problems", "worked problems", "practice problems"] }
  | .reference =>
    { slugs := ["reference", "handbooks", "dictionaries", "encyclopedias"],
      keywords := ["reference", "handbook", "dictionary", "encyclopedia"] }
  | .open_textbook =>
    { slugs := ["open textbooks", "open-textbooks", "open educational resources"],
      keywords := ["open textbook", "open educational resources", "open access textbook"] }
  | .case_studies =>
    { slugs := ["case studies", "case-studies"],
      keywords := ["case study", "case studies", "business case study", "clinical case"] }

/-- The options record `SearchOptions`, parametrized by the type `α` of raw response documents
(the source types them `any`).  All fields optional, as in the source. -/
structure SearchOptions (α : Type) where
  subjectSlug : Option String := none
  limit : Option Nat := none
  minResults : Option Nat := none
  maxAttempts : Option Nat := none
  clientSideFilter : Option (α → Bool) := none

/-- A single query attempt; `type` discriminates subject-filter from
keyword-search attempts. -/
inductive AttemptType where
  | subject
  | keyword
deriving DecidableEq, Repr

/-- One entry of the list built by `buildQueryAttempts`. -/
structure QueryAttempt where
  type : AttemptType
  q : String
  description : String
deriving DecidableEq, Repr

instance : Inhabited QueryAttempt := ⟨⟨.subject, "", ""⟩⟩

/-- The source's `const subject = opts.subjectSlug?.trim()` combined with the
JavaScript truthiness checks `if (subject)` that guard every use: an absent
subject, and a subject that trims to the empty string, behave identically,
so the effective subject is an `Option` that is `none` in both cases. -/
def effSubject : Option String → Option String
  | none => none
  | some s => if jsTrim s = "" then none else some (jsTrim s)

/-- Body of `buildQueryAttempts` given the category's profile entry:
per slug, an optional slug-plus-subject attempt followed by the slug-alone
attempt; then the keyword fallbacks built from the OR'd quoted keyword
phrase. -/
def buildQueryAttemptsCore (m : ResourceMapEntry) {α : Type}
    (opts : SearchOptions α) : List QueryAttempt :=
  let subject := effSubject opts.subjectSlug
  let subjectAttempts := m.slugs.flatMap (fun slug =>
    (match subject with
     | some s =>
       [{ type := .subject,
          q := "subject:" ++ encodeURIComponent slug ++ "+subject:" ++ encodeURIComponent s,
          description := "subject:" ++ slug ++ " AND subject:" ++ s }]
     | none => []) ++
    [{ type := .subject,
       q := "subject:" ++ encodeURIComponent slug,
       description := "subject:" ++ slug }])
  let keywordPhrase := String.intercalate " OR "
    (m.keywords.map (fun k => "\"" ++ k ++ "\""))
  let keywordAttempts : List QueryAttempt :=
    match subject with
    | some s =>
      [{ type := .keyword,
         q := encodeURIComponent (keywordPhrase ++ " " ++ s),
         description := "q: (" ++ String.intercalate " OR " m.keywords ++ ") " ++ s },
       { type := .keyword,
         q := encodeURIComponent keywordPhrase,
         description := "q: (" ++ String.intercalate " OR " m.keywords ++ ")" }]
    | none =>
      [{ type := .keyword,
         q := encodeURIComponent keywordPhrase,
         description := "q: (" ++ String.intercalate " OR " m.keywords ++ ")" }]
  subjectAttempts ++ keywordAttempts

/-- The planner `buildQueryAttempts` for a well-typed `ResourceTypeKey`, where the
profile lookup always succeeds. -/
def buildQueryAttempts (resourceType : ResourceTypeKey) {α : Type}
    (opts : SearchOptions α) : List QueryAttempt :=
  buildQueryAttemptsCore (RESOURCE_MAP resourceType) opts

/-! ## The sequential retriever -/

/-- Result of one `fetch` of the loop body: a non-success HTTP response
(`notOk`, the source's `!res.ok` branch), a network or JSON-parse failure
(`netFail`, the source's `catch` branch), or a parsed body whose `docs`
field is the given list when it is an array and absent otherwise (the
source's `Array.isArray(data.docs)` check). -/
inductive FetchResult (α : Type) where
  | notOk
  | netFail
  | ok (docs : Option (List α))

/-- The record returned by `runSmartSearch`. -/
structure SearchOutcome (α : Type) where
  docs : List α
  attempt : Nat
  description : String
  url : Option String
deriving DecidableEq

/-- The source's `if (opts.clientSideFilter) docs = docs.filter(...)`. -/
def applyFilter {α : Type} (filter : Option (α → Bool)) (docs : List α) : List α :=
  match filter with
  | some f => docs.filter f
  | none => docs

/-- Query parameters of the request URL for one attempt, as assembled by the
loop body: subject attempts decode their `q`, split it on `+`, strip the
`subject:` tags and emit one repeated `subject` parameter per part, then
`limit`; keyword attempts emit a single free-text `q` parameter and
`limit`. -/
def attemptParams (a : QueryAttempt) (limit : Nat) : List (String × String) :=
  match a.type with
  | .subject =>
    let parts := (jsSplitPlus (decodeURIComponent a.q)).map stripSubjectTag
    parts.map (fun p => ("subject", p)) ++ [("limit", toString limit)]
  | .keyword =>
    [("q", decodeURIComponent a.q), ("limit", toString limit)]

/-- Full request URL for one attempt. -/
def attemptUrl (a : QueryAttempt) (limit : Nat) : String :=
  "https://openlibrary.org/search.json?" ++ serializeParams (attemptParams a limit)

/-- The filtered document list an attempt contributes: the filtered `docs`
on a success, and the empty list on a failed attempt (the source resets
`lastResults = []` in both failure branches). -/
def attemptDocs {α : Type} (env : Nat → FetchResult α)
    (filter : Option (α → Bool)) (j : Nat) : List α :=
  match env j with
  | .ok odocs => applyFilter filter (odocs.getD [])
  | _ => []

/-- Whether attempt `j` satisfies the early-return test of the loop: its
fetch succeeded and the post-filter document count reaches `minResults`.
Failed attempts never satisfy it (the source's failure branches `continue`
without reaching the comparison). -/
def attemptQualifies {α : Type} (env : Nat → FetchResult α) (minResults : Nat)
    (filter : Option (α → Bool)) (j : Nat) : Bool :=
  match env j with
  | .ok _ => minResults ≤ (attemptDocs env filter j).length
  | _ => false

/-- The `for` loop of `runSmartSearch` over the remaining attempts, with the
current attempt index `i` and the running `lastResults`.  Returns the
outcome together with the list of request URLs issued, one per executed
attempt (the inter-attempt pacing delay has no observable effect here and
is not modelled). -/
def runAttempts {α : Type} (env : Nat → FetchResult α)
    (limit minResults maxAttempts : Nat) (filter : Option (α → Bool)) :
    List QueryAttempt → Nat → List α → SearchOutcome α × List String
  | [], _, lastResults =>
    ({ docs := lastResults, attempt := maxAttempts, description := "fallback",
       url := none }, [])
  | a :: rest, i, _ =>
    let url := attemptUrl a limit
    match env i with
    | .notOk =>
      let r := runAttempts env limit minResults maxAttempts filter rest (i + 1) []
      (r.1, url :: r.2)
    | .netFail =>
      let r := runAttempts env limit minResults maxAttempts filter rest (i + 1) []
      (r.1, url :: r.2)
    | .ok odocs =>
      let docs := applyFilter filter (odocs.getD [])
      if minResults ≤ docs.length then
        ({ docs := docs, attempt := i + 1, description := a.description,
           url := some url }, [url])
      else
        let r := runAttempts env limit minResults maxAttempts filter rest (i + 1) docs
        (r.1, url :: r.2)

/-- The source's `opts.limit ?? 20`. -/
def smartLimit {α : Type} (opts : SearchOptions α) : Nat :=
  opts.limit.getD 20

/-- The source's `opts.minResults ?? 6`. -/
def smartMin {α : Type} (opts : SearchOptions α) : Nat :=
  opts.minResults.getD 6

/-- The source's `Math.min(opts.maxAttempts ?? attempts.length,
attempts.length)`. -/
def smartMax (resourceType : ResourceTypeKey) {α : Type}
    (opts : SearchOptions α) : Nat :=
  Nat.min (opts.maxAttempts.getD (buildQueryAttempts resourceType opts).length)
    (buildQueryAttempts resourceType opts).length

/-- The retriever `runSmartSearch`: build the plan, cap the attempt count, and run the
loop starting from attempt `0` with empty `lastResults`.  The second
component is the trace of issued request URLs. -/
def runSmartSearch (resourceType : ResourceTypeKey) {α : Type}
    (opts : SearchOptions α) (env : Nat → FetchResult α) :
    SearchOutcome α × List String :=
  runAttempts env (smartLimit opts) (smartMin opts) (smartMax resourceType opts)
    opts.clientSideFilter
    ((buildQueryAttempts resourceType opts).take (smartMax resourceType opts)) 0 []

/-! ## JavaScript-level category lookup

At the TypeScript level the category argument always has type
`ResourceTypeKey`, so `RESOURCE_MAP[resourceType]` is total.  A JavaScript
caller can pass any string; `RESOURCE_MAP[cat]` is then `undefined` and the
immediately following `map.slugs` access throws a `TypeError` inside the
plan builder, before any `fetch`.  The spec names this failure
`UnknownCategory`; we model it so. -/

/-- The one error the call can surface: the category has no profile entry. -/
inductive JsError where
  | unknownCategory
deriving DecidableEq, Repr

/-- The table `RESOURCE_MAP` viewed as a JavaScript object: lookup by key string. -/
def RESOURCE_MAP_get (cat : String) : Option ResourceMapEntry :=
  if cat = "study_guide" then some (RESOURCE_MAP .study_guide)
  else if cat = "textbook" then some (RESOURCE_MAP .textbook)
  else if cat = "lecture_notes" then some (RESOURCE_MAP .lecture_notes)
  else if cat = "past_papers" then some (RESOURCE_MAP .past_papers)
  else if cat = "problem_sets" then some (RESOURCE_MAP .problem_sets)
  else if cat = "reference" then some (RESOURCE_MAP .reference)
  else if cat = "open_textbook" then some (RESOURCE_MAP .open_textbook)
  else if cat = "case_studies" then some (RESOURCE_MAP .case_studies)
  else none

/-- The planner `buildQueryAttempts` as called from JavaScript with an arbitrary
category string: a missing profile entry throws before anything else
happens. -/
def buildQueryAttemptsJS (cat : String) {α : Type} (opts : SearchOptions α) :
    Except JsError (List QueryAttempt) :=
  match RESOURCE_MAP_get cat with
  | none => .error .unknownCategory
  | some m => .ok (buildQueryAttemptsCore m opts)

/-- The retriever `runSmartSearch` as called from JavaScript with an arbitrary category
string: the plan is built first; a thrown lookup error propagates and no
request is issued (the error result carries no request trace and does not
consult `env`). -/
def runSmartSearchJS (cat : String) {α : Type} (opts : SearchOptions α)
    (env : Nat → FetchResult α) :
    Except JsError (SearchOutcome α × List String) :=
  match buildQueryAttemptsJS cat opts with
  | .error e => .error e
  | .ok attempts =>
    .ok (runAttempts env (smartLimit opts) (smartMin opts)
      (Nat.min (opts.maxAttempts.getD attempts.length) attempts.length)
      opts.clientSideFilter
      (attempts.take (Nat.min (opts.maxAttempts.getD attempts.length) attempts.length))
      0 [])

/-! ## Round-trip lemmas for the encoding layer -/

theorem hexVal_hexDig : ∀ n, n < 16 → hexVal (hexDig n) = some n := by decide

theorem charUtf8_lt (c : Char) : ∀ b ∈ charUtf8 c, b < 256 := by
  have hv : c.toNat < 55296 ∨ (57343 < c.toNat ∧ c.toNat < 1114112) := c.valid
  intro b hb
  unfold charUtf8 at hb
  by_cases h1 : c.toNat < 128
  · rw [if_pos h1] at hb
    simp only [List.mem_singleton] at hb
    omega
  · rw [if_neg h1] at hb
    by_cases h2 : c.toNat < 2048
    · rw [if_pos h2] at hb
      simp only [List.mem_cons, List.not_mem_nil, or_false] at hb
      rcases hb with h | h <;> omega
    · rw [if_neg h2] at hb
      by_cases h3 : c.toNat < 65536
      · rw [if_pos h3] at hb
        simp only [List.mem_cons, List.not_mem_nil, or_false] at hb
        rcases hb with h | h | h <;> omega
      · rw [if_neg h3] at hb
        simp only [List.mem_cons, List.not_mem_nil, or_false] at hb
        rcases hb with h | h | h | h <;> omega

theorem utf8Cont2_length {b0 : Nat} {rest rest2 : List Nat} {c : Char}
    (h : utf8Cont2 b0 rest = some (c, rest2)) : rest2.length ≤ rest.length := by
  rcases rest with - | ⟨b1, r2⟩
  · simp [utf8Cont2] at h
  · simp only [utf8Cont2] at h
    split_ifs at h
    simp only [Option.some.injEq, Prod.mk.injEq] at h
    obtain ⟨-, rfl⟩ := h
    simp only [List.length_cons]
    omega

theorem utf8Cont3_length {b0 : Nat} {rest rest2 : List Nat} {c : Char}
    (h : utf8Cont3 b0 rest = some (c, rest2)) : rest2.length ≤ rest.length := by
  rcases rest with - | ⟨b1, - | ⟨b2, r2⟩⟩
  · simp [utf8Cont3] at h
  · simp [utf8Cont3] at h
  · simp only [utf8Cont3] at h
    split_ifs at h
    simp only [Option.some.injEq, Prod.mk.injEq] at h
    obtain ⟨-, rfl⟩ := h
    simp only [List.length_cons]
    omega

theorem utf8Cont4_length {b0 : Nat} {rest rest2 : List Nat} {c : Char}
    (h : utf8Cont4 b0 rest = some (c, rest2)) : rest2.length ≤ rest.length := by
  rcases rest with - | ⟨b1, - | ⟨b2, - | ⟨b3, r2⟩⟩⟩
  · simp [utf8Cont4] at h
  · simp [utf8Cont4] at h
  · simp [utf8Cont4] at h
  · simp only [utf8Cont4] at h
    split_ifs at h
    simp only [Option.some.injEq, Prod.mk.injEq] at h
    obtain ⟨-, rfl⟩ := h
    simp only [List.length_cons]
    omega

theorem utf8Step_length {b0 : Nat} {rest rest2 : List Nat} {c : Char}
    (h : utf8Step b0 rest = some (c, rest2)) : rest2.length ≤ rest.length := by
  unfold utf8Step at h
  split_ifs at h
  · simp only [Option.some.injEq, Prod.mk.injEq] at h
    obtain ⟨-, rfl⟩ := h
    exact Nat.le_refl _
  · exact utf8Cont2_length h
  · exact utf8Cont3_length h
  · exact utf8Cont4_length h

theorem pctStep_length {rest : List Char} {b : Nat} {rest2 : List Char}
    (h : pctStep rest = some (b, rest2)) : rest2.length ≤ rest.length := by
  rcases rest with - | ⟨h1, - | ⟨h2, r2⟩⟩
  · simp [pctStep] at h
  · simp [pctStep] at h
  · simp only [pctStep] at h
    cases hv1 : hexVal h1 with
    | none => rw [hv1] at h; simp at h
    | some a =>
      cases hv2 : hexVal h2 with
      | none => rw [hv1, hv2] at h; simp at h
      | some b2 =>
        rw [hv1, hv2] at h
        simp only [Option.bind_eq_bind, Option.some_bind, Option.some.injEq,
          Prod.mk.injEq] at h
        obtain ⟨-, rfl⟩ := h
        simp only [List.length_cons]
        omega

theorem utf8DecodeFuel_nil (f : Nat) : utf8DecodeFuel f [] = some [] := by
  cases f <;> rfl

theorem unescFuel_nil (f : Nat) : unescFuel f [] = some [] := by
  cases f <;> rfl

theorem utf8DecodeFuel_mono :
    ∀ (f₁ f₂ : Nat) (bs : List Nat), bs.length ≤ f₁ → bs.length ≤ f₂ →
      utf8DecodeFuel f₁ bs = utf8DecodeFuel f₂ bs := by
  intro f₁
  induction f₁ with
  | zero =>
    intro f₂ bs h1 h2
    have hbs : bs = [] := List.eq_nil_of_length_eq_zero (Nat.le_zero.mp h1)
    subst hbs
    rw [utf8DecodeFuel_nil, utf8DecodeFuel_nil]
  | succ g ih =>
    intro f₂ bs h1 h2
    rcases bs with - | ⟨b0, rest⟩
    · rw [utf8DecodeFuel_nil, utf8DecodeFuel_nil]
    · rcases f₂ with - | f₂'
      · simp only [List.length_cons] at h2
        omega
      · simp only [utf8DecodeFuel]
        cases hstep : utf8Step b0 rest with
        | none => rfl
        | some p =>
          obtain ⟨c, rest2⟩ := p
          have hlen : rest2.length ≤ rest.length := utf8Step_length hstep
          simp only [Option.bind_eq_bind, Option.some_bind]
          have := ih f₂' rest2 (by simp only [List.length_cons] at h1; omega)
            (by simp only [List.length_cons] at h2; omega)
          rw [this]

theorem unescFuel_mono :
    ∀ (f₁ f₂ : Nat) (l : List Char), l.length ≤ f₁ → l.length ≤ f₂ →
      unescFuel f₁ l = unescFuel f₂ l := by
  intro f₁
  induction f₁ with
  | zero =>
    intro f₂ l h1 h2
    have hl : l = [] := List.eq_nil_of_length_eq_zero (Nat.le_zero.mp h1)
    subst hl
    rw [unescFuel_nil, unescFuel_nil]
  | succ g ih =>
    intro f₂ l h1 h2
    rcases l with - | ⟨c, rest⟩
    · rw [unescFuel_nil, unescFuel_nil]
    · rcases f₂ with - | f₂'
      · simp only [List.length_cons] at h2
        omega
      · simp only [unescFuel]
        by_cases hc : c = '%'
        · rw [if_pos hc, if_pos hc]
          cases hstep : pctStep rest with
          | none => rfl
          | some p =>
            obtain ⟨b, rest2⟩ := p
            have hlen : rest2.length ≤ rest.length := pctStep_length hstep
            simp only [Option.bind_eq_bind, Option.some_bind]
            have := ih f₂' rest2 (by simp only [List.length_cons] at h1; omega)
              (by simp only [List.length_cons] at h2; omega)
            rw [this]
        · rw [if_neg hc, if_neg hc]
          have := ih f₂' rest (by simp only [List.length_cons] at h1; omega)
            (by simp only [List.length_cons] at h2; omega)
          rw [this]

theorem utf8DecodeAll_cons (b0 : Nat) (rest : List Nat) :
    utf8DecodeAll (b0 :: rest) =
      (utf8Step b0 rest).bind (fun p => (utf8DecodeAll p.2).map (fun cs => p.1 :: cs)) := by
  unfold utf8DecodeAll
  simp only [List.length_cons, utf8DecodeFuel]
  cases hstep : utf8Step b0 rest with
  | none => rfl
  | some p =>
    obtain ⟨c, rest2⟩ := p
    simp only [Option.bind_eq_bind, Option.some_bind]
    rw [utf8DecodeFuel_mono rest.length rest2.length rest2
      (utf8Step_length hstep) (Nat.le_refl _)]

theorem unescapeChars_cons (c : Char) (rest : List Char) :
    unescapeChars (c :: rest) =
      if c = '%' then
        (pctStep rest).bind (fun p => (unescapeChars p.2).map (fun bs => p.1 :: bs))
      else (unescapeChars rest).map (fun bs => charUtf8 c ++ bs) := by
  unfold unescapeChars
  simp only [List.length_cons, unescFuel]
  by_cases hc : c = '%'
  · rw [if_pos hc, if_pos hc]
    cases hstep : pctStep rest with
    | none => rfl
    | some p =>
      obtain ⟨b, rest2⟩ := p
      simp only [Option.bind_eq_bind, Option.some_bind]
      rw [unescFuel_mono rest.length rest2.length rest2
        (pctStep_length hstep) (Nat.le_refl _)]
  · rw [if_neg hc, if_neg hc]

theorem utf8DecodeAll_charUtf8 (c : Char) (bs : List Nat) :
    utf8DecodeAll (charUtf8 c ++ bs) =
      (utf8DecodeAll bs).map (fun cs => c :: cs) := by
  have hv : c.toNat < 55296 ∨ (57343 < c.toNat ∧ c.toNat < 1114112) := c.valid
  unfold charUtf8
  by_cases h1 : c.toNat < 128
  · rw [if_pos h1]
    simp only [List.cons_append, List.nil_append, utf8DecodeAll_cons]
    unfold utf8Step
    rw [if_pos h1, Char.ofNat_toNat]
    rfl
  · rw [if_neg h1]
    by_cases h2 : c.toNat < 2048
    · rw [if_pos h2]
      simp only [List.cons_append, List.nil_append, utf8DecodeAll_cons]
      unfold utf8Step
      rw [if_neg (by omega), if_neg (by omega), if_pos (by omega)]
      simp only [utf8Cont2]
      rw [if_pos (by constructor <;> omega)]
      have hn : (192 + c.toNat / 64 - 192) * 64 + (128 + c.toNat % 64 - 128) = c.toNat := by
        omega
      rw [hn, if_neg (by omega), Char.ofNat_toNat]
      rfl
    · rw [if_neg h2]
      by_cases h3 : c.toNat < 65536
      · rw [if_pos h3]
        simp only [List.cons_append, List.nil_append, utf8DecodeAll_cons]
        unfold utf8Step
        rw [if_neg (by omega), if_neg (by omega), if_neg (by omega), if_pos (by omega)]
        simp only [utf8Cont3]
        rw [if_pos (by refine ⟨⟨?_, ?_⟩, ?_, ?_⟩ <;> omega)]
        have hn : (224 + c.toNat / 4096 - 224) * 4096 +
            (128 + c.toNat / 64 % 64 - 128) * 64 + (128 + c.toNat % 64 - 128) = c.toNat := by
          omega
        rw [hn, if_neg (by omega), Char.ofNat_toNat]
        rfl
      · rw [if_neg h3]
        simp only [List.cons_append, List.nil_append, utf8DecodeAll_cons]
        unfold utf8Step
        rw [if_neg (by omega), if_neg (by omega), if_neg (by omega), if_neg (by omega),
          if_pos (by omega)]
        simp only [utf8Cont4]
        rw [if_pos (by refine ⟨⟨?_, ?_⟩, ⟨?_, ?_⟩, ?_, ?_⟩ <;> omega)]
        have hn : (240 + c.toNat / 262144 - 240) * 262144 +
            (128 + c.toNat / 4096 % 64 - 128) * 4096 +
            (128 + c.toNat / 64 % 64 - 128) * 64 + (128 + c.toNat % 64 - 128) = c.toNat := by
          omega
        rw [hn, if_neg (by omega), Char.ofNat_toNat]
        rfl

theorem utf8DecodeAll_flatMap (l : List Char) (bs : List Nat) :
    utf8DecodeAll (l.flatMap charUtf8 ++ bs) =
      (utf8DecodeAll bs).map (fun cs => l ++ cs) := by
  induction l with
  | nil => simp
  | cons c rest ih =>
    simp only [List.flatMap_cons, List.append_assoc, utf8DecodeAll_charUtf8, ih]
    cases h : utf8DecodeAll bs <;> simp [h]

theorem unescapeChars_pct {b : Nat} (hb : b < 256) (cs : List Char) :
    unescapeChars ('%' :: hexDig (b / 16) :: hexDig (b % 16) :: cs) =
      (unescapeChars cs).map (fun bs => b :: bs) := by
  rw [unescapeChars_cons, if_pos rfl]
  have h1 : hexVal (hexDig (b / 16)) = some (b / 16) := hexVal_hexDig _ (by omega)
  have h2 : hexVal (hexDig (b % 16)) = some (b % 16) := hexVal_hexDig _ (by omega)
  simp only [pctStep, h1, h2, Option.bind_eq_bind, Option.some_bind]
  have hb16 : 16 * (b / 16) + b % 16 = b := by omega
  rw [hb16]

theorem unescapeChars_pctChars {bs : List Nat} (hbs : ∀ b ∈ bs, b < 256) (cs : List Char) :
    unescapeChars (pctChars bs ++ cs) = (unescapeChars cs).map (fun l => bs ++ l) := by
  induction bs with
  | nil =>
    simp [pctChars]
  | cons b rest ih =>
    have hcons : pctChars (b :: rest) ++ cs =
        '%' :: hexDig (b / 16) :: hexDig (b % 16) :: (pctChars rest ++ cs) := by
      simp [pctChars]
    rw [hcons, unescapeChars_pct (hbs b (by simp)) (pctChars rest ++ cs),
      ih (fun x hx => hbs x (by simp [hx]))]
    cases h : unescapeChars cs <;> simp [h]

theorem unescapeChars_lit {c : Char} (hc : c ≠ '%') (cs : List Char) :
    unescapeChars (c :: cs) = (unescapeChars cs).map (fun bs => charUtf8 c ++ bs) := by
  rw [unescapeChars_cons, if_neg hc]

theorem unescapeChars_plain {l : List Char} (hl : ∀ c ∈ l, c ≠ '%') (cs : List Char) :
    unescapeChars (l ++ cs) =
      (unescapeChars cs).map (fun bs => l.flatMap charUtf8 ++ bs) := by
  induction l with
  | nil => simp
  | cons c rest ih =>
    rw [List.cons_append, unescapeChars_lit (hl c (by simp)),
      ih (fun x hx => hl x (by simp [hx]))]
    cases h : unescapeChars cs <;> simp [h]

theorem isUnreservedEnc_ne_pct {c : Char} (h : isUnreservedEnc c = true) : c ≠ '%' := by
  intro hc
  subst hc
  exact absurd h (by decide)

theorem encodeUriChars_cons (c : Char) (rest : List Char) :
    encodeUriChars (c :: rest) =
      (if isUnreservedEnc c then [c] else pctChars (charUtf8 c)) ++ encodeUriChars rest := by
  simp [encodeUriChars]

theorem unescapeChars_encode (l : List Char) (cs : List Char) :
    unescapeChars (encodeUriChars l ++ cs) =
      (unescapeChars cs).map (fun bs => l.flatMap charUtf8 ++ bs) := by
  induction l with
  | nil =>
    simp [encodeUriChars]
  | cons c rest ih =>
    rw [encodeUriChars_cons]
    by_cases hc : isUnreservedEnc c
    · rw [if_pos hc, List.append_assoc, List.cons_append, List.nil_append,
        unescapeChars_lit (isUnreservedEnc_ne_pct hc), ih]
      cases h : unescapeChars cs <;> simp [h]
    · rw [if_neg hc, List.append_assoc, unescapeChars_pctChars (charUtf8_lt c), ih]
      cases h : unescapeChars cs <;> simp [h]

theorem decodeUriChars_encode (l : List Char) :
    decodeUriChars (encodeUriChars l) = some l := by
  have h1 : unescapeChars (encodeUriChars l) = some (l.flatMap charUtf8) := by
    have h := unescapeChars_encode l []
    simpa [show unescapeChars [] = some [] from rfl] using h
  have h2 : utf8DecodeAll (l.flatMap charUtf8) = some l := by
    have h := utf8DecodeAll_flatMap l []
    simpa [show utf8DecodeAll [] = some [] from rfl] using h
  unfold decodeUriChars
  rw [h1]
  simpa using h2

theorem str_data_append (a b : String) : (a ++ b).data = a.data ++ b.data := rfl

theorem encodeURIComponent_data (s : String) :
    (encodeURIComponent s).data = encodeUriChars s.data := rfl

theorem decodeURIComponent_encode (s : String) :
    decodeURIComponent (encodeURIComponent s) = s := by
  unfold decodeURIComponent
  rw [encodeURIComponent_data, decodeUriChars_encode]

/-! ## Splitting and tag-stripping lemmas -/

theorem splitCharAux_no_sep {sep : Char} :
    ∀ {l : List Char}, (∀ c ∈ l, c ≠ sep) → ∀ acc,
      splitCharAux sep l acc = [acc.reverse ++ l] := by
  intro l
  induction l with
  | nil => intro _ acc; simp [splitCharAux]
  | cons c rest ih =>
    intro hl acc
    rw [splitCharAux, if_neg (hl c (by simp)), ih (fun x hx => hl x (by simp [hx]))]
    simp

theorem splitCharAux_mid {sep : Char} :
    ∀ {l1 : List Char}, (∀ c ∈ l1, c ≠ sep) → ∀ (l2 : List Char) (acc : List Char),
      splitCharAux sep (l1 ++ sep :: l2) acc =
        (acc.reverse ++ l1) :: splitCharAux sep l2 [] := by
  intro l1
  induction l1 with
  | nil =>
    intro _ l2 acc
    rw [List.nil_append, splitCharAux, if_pos rfl]
    simp
  | cons c rest ih =>
    intro hl l2 acc
    rw [List.cons_append, splitCharAux, if_neg (hl c (by simp)),
      ih (fun x hx => hl x (by simp [hx]))]
    simp

/-- The characters of the literal `subject:` tag. -/
def subjectTagChars : List Char := ['s', 'u', 'b', 'j', 'e', 'c', 't', ':']

theorem subjectTag_data : "subject:".data = subjectTagChars := rfl

theorem stripSubjectTag_append (x : String) : stripSubjectTag ("subject:" ++ x) = x := rfl

/-! ## Decoding the query strings the planner builds -/

theorem unescapeChars_encode_nil (l : List Char) :
    unescapeChars (encodeUriChars l) = some (l.flatMap charUtf8) := by
  have h := unescapeChars_encode l []
  simpa [show unescapeChars [] = some [] from rfl] using h

theorem utf8DecodeAll_flatMap_nil (l : List Char) :
    utf8DecodeAll (l.flatMap charUtf8) = some l := by
  have h := utf8DecodeAll_flatMap l []
  simpa [show utf8DecodeAll [] = some [] from rfl] using h

theorem subjectTagChars_ne_pct : ∀ c ∈ subjectTagChars, c ≠ '%' := by decide

/-- Decoding the query of a slug-alone subject attempt. -/
theorem decodeURIComponent_subject_single (slug : String) :
    decodeURIComponent ("subject:" ++ encodeURIComponent slug) = "subject:" ++ slug := by
  have hdata : ("subject:" ++ encodeURIComponent slug).data =
      subjectTagChars ++ encodeUriChars slug.data := rfl
  have hu : unescapeChars (subjectTagChars ++ encodeUriChars slug.data) =
      some (subjectTagChars.flatMap charUtf8 ++ slug.data.flatMap charUtf8) := by
    rw [unescapeChars_plain subjectTagChars_ne_pct, unescapeChars_encode_nil]
    rfl
  have hd : decodeUriChars ("subject:" ++ encodeURIComponent slug).data =
      some (subjectTagChars ++ slug.data) := by
    rw [hdata]
    unfold decodeUriChars
    rw [hu]
    have hj : subjectTagChars.flatMap charUtf8 ++ slug.data.flatMap charUtf8 =
        (subjectTagChars ++ slug.data).flatMap charUtf8 := by
      rw [List.flatMap_append]
    rw [hj, Option.some_bind, utf8DecodeAll_flatMap_nil]
  have hmk : String.mk (subjectTagChars ++ slug.data) = "subject:" ++ slug := by
    have h : ("subject:" ++ slug).data = subjectTagChars ++ slug.data := rfl
    rw [← h]
  unfold decodeURIComponent
  rw [hd]
  exact hmk

/-- Decoding the query of a slug-plus-subject attempt. -/
theorem decodeURIComponent_subject_pair (slug t : String) :
    decodeURIComponent
        ("subject:" ++ encodeURIComponent slug ++ "+subject:" ++ encodeURIComponent t) =
      "subject:" ++ slug ++ "+subject:" ++ t := by
  have hdata :
      ("subject:" ++ encodeURIComponent slug ++ "+subject:" ++ encodeURIComponent t).data =
        subjectTagChars ++ (encodeUriChars slug.data ++
          ('+' :: (subjectTagChars ++ encodeUriChars t.data))) := by
    simp [str_data_append, List.append_assoc]
    rfl
  have e2 : unescapeChars (subjectTagChars ++ encodeUriChars t.data) =
      some (subjectTagChars.flatMap charUtf8 ++ t.data.flatMap charUtf8) := by
    rw [unescapeChars_plain subjectTagChars_ne_pct, unescapeChars_encode_nil]
    rfl
  have e1 : unescapeChars ('+' :: (subjectTagChars ++ encodeUriChars t.data)) =
      some (charUtf8 '+' ++ (subjectTagChars.flatMap charUtf8 ++ t.data.flatMap charUtf8)) := by
    rw [unescapeChars_lit (by decide), e2]
    rfl
  have e0 : unescapeChars (encodeUriChars slug.data ++
      ('+' :: (subjectTagChars ++ encodeUriChars t.data))) =
      some (slug.data.flatMap charUtf8 ++ (charUtf8 '+' ++
        (subjectTagChars.flatMap charUtf8 ++ t.data.flatMap charUtf8))) := by
    rw [unescapeChars_encode, e1]
    rfl
  have hu : unescapeChars (subjectTagChars ++ (encodeUriChars slug.data ++
      ('+' :: (subjectTagChars ++ encodeUriChars t.data)))) =
      some (subjectTagChars.flatMap charUtf8 ++ (slug.data.flatMap charUtf8 ++
        (charUtf8 '+' ++ (subjectTagChars.flatMap charUtf8 ++ t.data.flatMap charUtf8)))) := by
    rw [unescapeChars_plain subjectTagChars_ne_pct, e0]
    rfl
  have hflat : subjectTagChars.flatMap charUtf8 ++ (slug.data.flatMap charUtf8 ++
      (charUtf8 '+' ++ (subjectTagChars.flatMap charUtf8 ++ t.data.flatMap charUtf8))) =
      (subjectTagChars ++ (slug.data ++
        ('+' :: (subjectTagChars ++ t.data)))).flatMap charUtf8 := by
    simp [List.flatMap_append, List.flatMap_cons, List.append_assoc]
  have hd : decodeUriChars
      ("subject:" ++ encodeURIComponent slug ++ "+subject:" ++ encodeURIComponent t).data =
      some (subjectTagChars ++ (slug.data ++ ('+' :: (subjectTagChars ++ t.data)))) := by
    rw [hdata]
    unfold decodeUriChars
    rw [hu, hflat, Option.some_bind, utf8DecodeAll_flatMap_nil]
  have htarget : ("subject:" ++ slug ++ "+subject:" ++ t).data =
      subjectTagChars ++ (slug.data ++ ('+' :: (subjectTagChars ++ t.data))) := by
    simp [str_data_append, List.append_assoc]
    rfl
  have hmk : String.mk (subjectTagChars ++ (slug.data ++ ('+' :: (subjectTagChars ++ t.data)))) =
      "subject:" ++ slug ++ "+subject:" ++ t := by
    rw [← htarget]
  unfold decodeURIComponent
  rw [hd]
  exact hmk

theorem subjectTagChars_ne_plus : ∀ c ∈ subjectTagChars, c ≠ '+' := by decide

theorem jsSplitPlus_pair (slug t : String) (hs : '+' ∉ slug.data) (ht : '+' ∉ t.data) :
    jsSplitPlus ("subject:" ++ slug ++ "+subject:" ++ t) =
      ["subject:" ++ slug, "subject:" ++ t] := by
  have hl1 : ∀ c ∈ subjectTagChars ++ slug.data, c ≠ '+' := by
    intro c hc
    rcases List.mem_append.mp hc with h | h
    · exact subjectTagChars_ne_plus c h
    · intro heq
      exact hs (heq ▸ h)
  have hl2 : ∀ c ∈ subjectTagChars ++ t.data, c ≠ '+' := by
    intro c hc
    rcases List.mem_append.mp hc with h | h
    · exact subjectTagChars_ne_plus c h
    · intro heq
      exact ht (heq ▸ h)
  have hdata : ("subject:" ++ slug ++ "+subject:" ++ t).data =
      (subjectTagChars ++ slug.data) ++ ('+' :: (subjectTagChars ++ t.data)) := by
    simp [str_data_append, List.append_assoc]
    rfl
  unfold jsSplitPlus
  rw [hdata, splitCharAux_mid hl1 (subjectTagChars ++ t.data) [],
    splitCharAux_no_sep hl2 []]
  simp only [List.reverse_nil, List.nil_append, List.map_cons, List.map_nil]
  rfl

theorem jsSplitPlus_single (slug : String) (hs : '+' ∉ slug.data) :
    jsSplitPlus ("subject:" ++ slug) = ["subject:" ++ slug] := by
  have hl1 : ∀ c ∈ subjectTagChars ++ slug.data, c ≠ '+' := by
    intro c hc
    rcases List.mem_append.mp hc with h | h
    · exact subjectTagChars_ne_plus c h
    · intro heq
      exact hs (heq ▸ h)
  have hdata : ("subject:" ++ slug).data = subjectTagChars ++ slug.data := rfl
  unfold jsSplitPlus
  rw [hdata, splitCharAux_no_sep hl1 []]
  simp only [List.reverse_nil, List.nil_append, List.map_cons, List.map_nil]
  rfl

theorem attemptParams_subject_pair (slug t d : String) (L : Nat)
    (hs : '+' ∉ slug.data) (ht : '+' ∉ t.data) :
    attemptParams
      { type := .subject,
        q := "subject:" ++ encodeURIComponent slug ++ "+subject:" ++ encodeURIComponent t,
        description := d } L =
      [("subject", slug), ("subject", t), ("limit", toString L)] := by
  show ((jsSplitPlus (decodeURIComponent
      ("subject:" ++ encodeURIComponent slug ++ "+subject:" ++
        encodeURIComponent t))).map stripSubjectTag).map (fun p => ("subject", p)) ++
      [("limit", toString L)] = _
  rw [decodeURIComponent_subject_pair, jsSplitPlus_pair slug t hs ht]
  simp only [List.map_cons, List.map_nil, stripSubjectTag_append]
  rfl

theorem attemptParams_subject_single (slug d : String) (L : Nat) (hs : '+' ∉ slug.data) :
    attemptParams
      { type := .subject, q := "subject:" ++ encodeURIComponent slug, description := d } L =
      [("subject", slug), ("limit", toString L)] := by
  show ((jsSplitPlus (decodeURIComponent
      ("subject:" ++ encodeURIComponent slug))).map stripSubjectTag).map
      (fun p => ("subject", p)) ++ [("limit", toString L)] = _
  rw [decodeURIComponent_subject_single, jsSplitPlus_single slug hs]
  simp only [List.map_cons, List.map_nil, stripSubjectTag_append]
  rfl

theorem attemptParams_keyword (s d : String) (L : Nat) :
    attemptParams { type := .keyword, q := encodeURIComponent s, description := d } L =
      [("q", s), ("limit", toString L)] := by
  show [("q", decodeURIComponent (encodeURIComponent s)), ("limit", toString L)] = _
  rw [decodeURIComponent_encode]

/-! ## Behaviour of the retrieval loop -/

theorem attemptQualifies_ok {α : Type} {env : Nat → FetchResult α} {mn : Nat}
    {f : Option (α → Bool)} {j : Nat} {odocs : Option (List α)}
    (henv : env j = .ok odocs) :
    attemptQualifies env mn f j =
      decide (mn ≤ (applyFilter f (odocs.getD [])).length) := by
  unfold attemptQualifies attemptDocs
  rw [henv]

theorem attemptQualifies_notOk {α : Type} {env : Nat → FetchResult α} {mn : Nat}
    {f : Option (α → Bool)} {j : Nat} (henv : env j = .notOk) :
    attemptQualifies env mn f j = false := by
  unfold attemptQualifies
  rw [henv]

theorem attemptQualifies_netFail {α : Type} {env : Nat → FetchResult α} {mn : Nat}
    {f : Option (α → Bool)} {j : Nat} (henv : env j = .netFail) :
    attemptQualifies env mn f j = false := by
  unfold attemptQualifies
  rw [henv]

theorem attemptDocs_ok {α : Type} {env : Nat → FetchResult α}
    {f : Option (α → Bool)} {j : Nat} {odocs : Option (List α)}
    (henv : env j = .ok odocs) :
    attemptDocs env f j = applyFilter f (odocs.getD []) := by
  unfold attemptDocs
  rw [henv]

theorem attemptDocs_notOk {α : Type} {env : Nat → FetchResult α}
    {f : Option (α → Bool)} {j : Nat} (henv : env j = .notOk) :
    attemptDocs env f j = [] := by
  unfold attemptDocs
  rw [henv]

theorem attemptDocs_netFail {α : Type} {env : Nat → FetchResult α}
    {f : Option (α → Bool)} {j : Nat} (henv : env j = .netFail) :
    attemptDocs env f j = [] := by
  unfold attemptDocs
  rw [henv]

theorem runAttempts_cons_notOk {α : Type} {env : Nat → FetchResult α}
    {L mn M : Nat} {f : Option (α → Bool)} {i : Nat} (henv : env i = .notOk)
    (a : QueryAttempt) (rest : List QueryAttempt) (last : List α) :
    runAttempts env L mn M f (a :: rest) i last =
      ((runAttempts env L mn M f rest (i + 1) []).1,
       attemptUrl a L :: (runAttempts env L mn M f rest (i + 1) []).2) := by
  simp only [runAttempts, henv]

theorem runAttempts_cons_netFail {α : Type} {env : Nat → FetchResult α}
    {L mn M : Nat} {f : Option (α → Bool)} {i : Nat} (henv : env i = .netFail)
    (a : QueryAttempt) (rest : List QueryAttempt) (last : List α) :
    runAttempts env L mn M f (a :: rest) i last =
      ((runAttempts env L mn M f rest (i + 1) []).1,
       attemptUrl a L :: (runAttempts env L mn M f rest (i + 1) []).2) := by
  simp only [runAttempts, henv]

theorem runAttempts_cons_ok {α : Type} {env : Nat → FetchResult α}
    {L mn M : Nat} {f : Option (α → Bool)} {i : Nat} {odocs : Option (List α)}
    (henv : env i = .ok odocs) (a : QueryAttempt) (rest : List QueryAttempt)
    (last : List α) :
    runAttempts env L mn M f (a :: rest) i last =
      if mn ≤ (applyFilter f (odocs.getD [])).length then
        ({ docs := applyFilter f (odocs.getD []), attempt := i + 1,
           description := a.description, url := some (attemptUrl a L) },
         [attemptUrl a L])
      else
        ((runAttempts env L mn M f rest (i + 1) (applyFilter f (odocs.getD []))).1,
         attemptUrl a L ::
           (runAttempts env L mn M f rest (i + 1) (applyFilter f (odocs.getD []))).2) := by
  simp only [runAttempts, henv]

theorem runAttempts_firstQualify {α : Type} (env : Nat → FetchResult α)
    (L mn M : Nat) (f : Option (α → Bool)) :
    ∀ (l : List QueryAttempt) (i : Nat) (last : List α) (k : Nat), k < l.length →
      attemptQualifies env mn f (i + k) = true →
      (∀ j, j < k → attemptQualifies env mn f (i + j) = false) →
      runAttempts env L mn M f l i last =
        ({ docs := attemptDocs env f (i + k), attempt := i + k + 1,
           description := (l.getD k default).description,
           url := some (attemptUrl (l.getD k default) L) },
         (l.take (k + 1)).map (fun a => attemptUrl a L)) := by
  intro l
  induction l with
  | nil =>
    intro i last k hk
    simp at hk
  | cons a rest ih =>
    intro i last k hk hq hprev
    cases k with
    | zero =>
      rw [Nat.add_zero] at hq
      rcases henv : env i with - | - | odocs
      · rw [attemptQualifies_notOk henv] at hq
        exact absurd hq (by simp)
      · rw [attemptQualifies_netFail henv] at hq
        exact absurd hq (by simp)
      · rw [attemptQualifies_ok henv] at hq
        rw [runAttempts_cons_ok henv, if_pos (of_decide_eq_true hq)]
        simp [attemptDocs_ok henv, List.getD_cons_zero, List.take_succ_cons]
    | succ k' =>
      have h0 : attemptQualifies env mn f i = false := by
        have := hprev 0 (Nat.succ_pos k')
        rwa [Nat.add_zero] at this
      have hqs : attemptQualifies env mn f ((i + 1) + k') = true := by
        have harith : i + (k' + 1) = (i + 1) + k' := by omega
        rwa [harith] at hq
      have hprevs : ∀ j, j < k' → attemptQualifies env mn f ((i + 1) + j) = false := by
        intro j hj
        have := hprev (j + 1) (by omega)
        have harith : i + (j + 1) = (i + 1) + j := by omega
        rwa [harith] at this
      have hks : k' < rest.length := by
        simp only [List.length_cons] at hk
        omega
      have harith1 : (i + 1) + k' = i + (k' + 1) := by omega
      rcases henv : env i with - | - | odocs
      · rw [runAttempts_cons_notOk henv, ih (i + 1) [] k' hks hqs hprevs]
        simp [List.getD_cons_succ, List.take_succ_cons, harith1]
      · rw [runAttempts_cons_netFail henv, ih (i + 1) [] k' hks hqs hprevs]
        simp [List.getD_cons_succ, List.take_succ_cons, harith1]
      · rw [attemptQualifies_ok henv] at h0
        rw [runAttempts_cons_ok henv, if_neg (by simpa using h0),
          ih (i + 1) (applyFilter f (odocs.getD [])) k' hks hqs hprevs]
        simp [List.getD_cons_succ, List.take_succ_cons, harith1]

theorem fallbackDocs_shift {α : Type} (env : Nat → FetchResult α)
    (f : Option (α → Bool)) (i n : Nat) (e0 : List α)
    (h0 : e0 = attemptDocs env f i) :
    (if n = 0 then e0 else attemptDocs env f (i + 1 + n - 1)) =
      attemptDocs env f (i + (n + 1) - 1) := by
  rcases Nat.eq_zero_or_pos n with hr | hr
  · subst hr
    simpa using h0
  · rw [if_neg (by omega)]
    congr 1
    omega

theorem runAttempts_noneQualify {α : Type} (env : Nat → FetchResult α)
    (L mn M : Nat) (f : Option (α → Bool)) :
    ∀ (l : List QueryAttempt) (i : Nat) (last : List α),
      (∀ j, j < l.length → attemptQualifies env mn f (i + j) = false) →
      runAttempts env L mn M f l i last =
        ({ docs := if l.length = 0 then last else attemptDocs env f (i + l.length - 1),
           attempt := M, description := "fallback", url := none },
         l.map (fun a => attemptUrl a L)) := by
  intro l
  induction l with
  | nil =>
    intro i last _
    simp [runAttempts]
  | cons a rest ih =>
    intro i last h
    have h0 : attemptQualifies env mn f i = false := by
      have := h 0 (by simp)
      rwa [Nat.add_zero] at this
    have hshift : ∀ j, j < rest.length → attemptQualifies env mn f ((i + 1) + j) = false := by
      intro j hj
      have := h (j + 1) (by simp only [List.length_cons]; omega)
      have harith : i + (j + 1) = (i + 1) + j := by omega
      rwa [harith] at this
    rcases henv : env i with - | - | odocs
    · rw [runAttempts_cons_notOk henv, ih (i + 1) [] hshift,
        fallbackDocs_shift env f i rest.length [] (attemptDocs_notOk henv).symm]
      simp [List.length_cons]
    · rw [runAttempts_cons_netFail henv, ih (i + 1) [] hshift,
        fallbackDocs_shift env f i rest.length [] (attemptDocs_netFail henv).symm]
      simp [List.length_cons]
    · rw [attemptQualifies_ok henv] at h0
      rw [runAttempts_cons_ok henv, if_neg (by simpa using h0),
        ih (i + 1) (applyFilter f (odocs.getD [])) hshift,
        fallbackDocs_shift env f i rest.length (applyFilter f (odocs.getD []))
          (attemptDocs_ok henv).symm]
      simp [List.length_cons]

theorem runAttempts_log {α : Type} (env : Nat → FetchResult α)
    (L mn M : Nat) (f : Option (α → Bool)) :
    ∀ (l : List QueryAttempt) (i : Nat) (last : List α),
      ∃ n, n ≤ l.length ∧
        (runAttempts env L mn M f l i last).2 =
          (l.take n).map (fun a => attemptUrl a L) := by
  intro l
  induction l with
  | nil =>
    intro i last
    exact ⟨0, by simp [runAttempts]⟩
  | cons a rest ih =>
    intro i last
    rcases henv : env i with - | - | odocs
    · obtain ⟨n, hn, hlog⟩ := ih (i + 1) []
      refine ⟨n + 1, by simp only [List.length_cons]; omega, ?_⟩
      rw [runAttempts_cons_notOk henv]
      simp [hlog, List.take_succ_cons]
    · obtain ⟨n, hn, hlog⟩ := ih (i + 1) []
      refine ⟨n + 1, by simp only [List.length_cons]; omega, ?_⟩
      rw [runAttempts_cons_netFail henv]
      simp [hlog, List.take_succ_cons]
    · by_cases hq : mn ≤ (applyFilter f (odocs.getD [])).length
      · refine ⟨1, by simp only [List.length_cons]; omega, ?_⟩
        rw [runAttempts_cons_ok henv, if_pos hq]
        simp [List.take_succ_cons]
      · obtain ⟨n, hn, hlog⟩ := ih (i + 1) (applyFilter f (odocs.getD []))
        refine ⟨n + 1, by simp only [List.length_cons]; omega, ?_⟩
        rw [runAttempts_cons_ok henv, if_neg hq]
        simp [hlog, List.take_succ_cons]

/-! ## Closed form of the attempt plan -/

/-- The slug-plus-subject subject-filter attempt. -/
def subjPairAttempt (slug t : String) : QueryAttempt :=
  { type := .subject,
    q := "subject:" ++ encodeURIComponent slug ++ "+subject:" ++ encodeURIComponent t,
    description := "subject:" ++ slug ++ " AND subject:" ++ t }

/-- The slug-alone subject-filter attempt. -/
def subjAloneAttempt (slug : String) : QueryAttempt :=
  { type := .subject,
    q := "subject:" ++ encodeURIComponent slug,
    description := "subject:" ++ slug }

/-- The OR'd quoted keyword phrase of a category. -/
def kwQuotedPhrase (m : ResourceMapEntry) : String :=
  String.intercalate " OR " (m.keywords.map (fun k => "\"" ++ k ++ "\""))

/-- The keyword attempt combining the phrase with the subject token. -/
def kwPairAttempt (m : ResourceMapEntry) (t : String) : QueryAttempt :=
  { type := .keyword,
    q := encodeURIComponent (kwQuotedPhrase m ++ " " ++ t),
    description := "q: (" ++ String.intercalate " OR " m.keywords ++ ") " ++ t }

/-- The keyword attempt with the phrase alone. -/
def kwAloneAttempt (m : ResourceMapEntry) : QueryAttempt :=
  { type := .keyword,
    q := encodeURIComponent (kwQuotedPhrase m),
    description := "q: (" ++ String.intercalate " OR " m.keywords ++ ")" }

theorem buildQueryAttemptsCore_some (m : ResourceMapEntry) {α : Type}
    (opts : SearchOptions α) (t : String) (h : effSubject opts.subjectSlug = some t) :
    buildQueryAttemptsCore m opts =
      m.slugs.flatMap (fun slug => [subjPairAttempt slug t, subjAloneAttempt slug]) ++
      [kwPairAttempt m t, kwAloneAttempt m] := by
  simp only [buildQueryAttemptsCore, h]
  rfl

theorem buildQueryAttemptsCore_none (m : ResourceMapEntry) {α : Type}
    (opts : SearchOptions α) (h : effSubject opts.subjectSlug = none) :
    buildQueryAttemptsCore m opts =
      m.slugs.flatMap (fun slug => [subjAloneAttempt slug]) ++ [kwAloneAttempt m] := by
  simp only [buildQueryAttemptsCore, h]
  rfl

theorem length_flatMap_pair {σ τ : Type} (l : List σ) (f g : σ → τ) :
    (l.flatMap (fun s => [f s, g s])).length = 2 * l.length := by
  induction l with
  | nil => simp
  | cons s rest ih =>
    simp only [List.flatMap_cons, List.length_append, List.length_cons, ih,
      List.length_nil]
    omega

theorem length_flatMap_single {σ τ : Type} (l : List σ) (f : σ → τ) :
    (l.flatMap (fun s => [f s])).length = l.length := by
  induction l with
  | nil => simp
  | cons s rest ih =>
    simp only [List.flatMap_cons, List.length_append, List.length_cons, ih,
      List.length_nil]
    omega

theorem flatMap_pair_getD {σ : Type} (f g : σ → QueryAttempt) (dd : σ) :
    ∀ (l : List σ) (k : Nat), k < l.length →
      (l.flatMap (fun s => [f s, g s])).getD (2 * k) default = f (l.getD k dd) ∧
      (l.flatMap (fun s => [f s, g s])).getD (2 * k + 1) default = g (l.getD k dd) := by
  intro l
  induction l with
  | nil =>
    intro k hk
    simp at hk
  | cons s rest ih
  =>
    intro k hk
    cases k with
    | zero =>
      constructor <;> simp [List.flatMap_cons]
    | succ k' =>
      have hks : k' < rest.length := by
        simp only [List.length_cons] at hk
        omega
      have h2 : 2 * (k' + 1) = 2 * k' + 1 + 1 := by omega
      have h3 : 2 * (k' + 1) + 1 = (2 * k' + 1 + 1) + 1 := by omega
      obtain ⟨ih1, ih2⟩ := ih k' hks
      constructor
      · rw [List.flatMap_cons, List.cons_append, List.cons_append, List.nil_append,
          h2, List.getD_cons_succ, List.getD_cons_succ, List.getD_cons_succ, ih1]
      · rw [List.flatMap_cons, List.cons_append, List.cons_append, List.nil_append,
          h3, List.getD_cons_succ, List.getD_cons_succ, List.getD_cons_succ, ih2]

theorem flatMap_single_getD {σ : Type} (f : σ → QueryAttempt) (dd : σ) :
    ∀ (l : List σ) (k : Nat), k < l.length →
      (l.flatMap (fun s => [f s])).getD k default = f (l.getD k dd) := by
  intro l
  induction l with
  | nil =>
    intro k hk
    simp at hk
  | cons s rest ih =>
    intro k hk
    cases k with
    | zero => simp [List.flatMap_cons]
    | succ k' =>
      have hks : k' < rest.length := by
        simp only [List.length_cons] at hk
        omega
      rw [List.flatMap_cons, List.cons_append, List.nil_append,
        List.getD_cons_succ, List.getD_cons_succ, ih k' hks]

theorem getD_take_of_lt {l : List QueryAttempt} {M k : Nat} (h : k < M) :
    (l.take M).getD k default = l.getD k default := by
  simp [List.getD_eq_getElem?_getD, List.getElem?_take, h]

/-! ## Claim theorems -/

/-- C3: for every configured resource category, `buildQueryAttempts` returns
a non-empty attempt list whose length equals (number of subject slugs) ×
(2 if a non-empty subject token is supplied, else 1) + (2 keyword attempts
if a subject token is supplied, else 1); every category's slug list and
keyword list is non-empty. -/
theorem buildQueryAttempts_length {α : Type} (rt : ResourceTypeKey)
    (opts : SearchOptions α) :
    buildQueryAttempts rt opts ≠ [] ∧
    (buildQueryAttempts rt opts).length =
      (RESOURCE_MAP rt).slugs.length *
        (if effSubject opts.subjectSlug = none then 1 else 2) +
      (if effSubject opts.subjectSlug = none then 1 else 2) ∧
    (RESOURCE_MAP rt).slugs ≠ [] ∧ (RESOURCE_MAP rt).keywords ≠ [] := by
  have hmaps : (RESOURCE_MAP rt).slugs ≠ [] ∧ (RESOURCE_MAP rt).keywords ≠ [] := by
    cases rt <;> simp [RESOURCE_MAP]
  have hlen : (buildQueryAttempts rt opts).length =
      (RESOURCE_MAP rt).slugs.length *
        (if effSubject opts.subjectSlug = none then 1 else 2) +
      (if effSubject opts.subjectSlug = none then 1 else 2) := by
    rcases heff : effSubject opts.subjectSlug with - | t
    · rw [if_pos rfl]
      unfold buildQueryAttempts
      rw [buildQueryAttemptsCore_none _ _ heff, List.length_append,
        length_flatMap_single]
      simp
    · rw [if_neg (by simp)]
      unfold buildQueryAttempts
      rw [buildQueryAttemptsCore_some _ _ t heff, List.length_append,
        length_flatMap_pair]
      simp
      omega
  refine ⟨?_, hlen, hmaps⟩
  have hpos : 0 < (buildQueryAttempts rt opts).length := by
    rw [hlen]
    split_ifs <;> omega
  exact List.ne_nil_of_length_pos hpos

/-- C4: in every attempt list: when a subject token is supplied, attempts
`2k` and `2k+1` are the slug-plus-subject and the slug-alone attempt of
slug `k` (so the combined attempt immediately precedes the alone attempt);
all subject-filter attempts precede all keyword-search attempts; and the
keyword attempt combining the phrase with the subject precedes the keyword
attempt with the phrase alone. -/
theorem buildQueryAttempts_order {α : Type} (rt : ResourceTypeKey)
    (opts : SearchOptions α) :
    (∃ p q, buildQueryAttempts rt opts = p ++ q ∧
      (∀ a ∈ p, a.type = AttemptType.subject) ∧
      (∀ b ∈ q, b.type = AttemptType.keyword)) ∧
    (∀ t, effSubject opts.subjectSlug = some t →
      (∀ k, k < (RESOURCE_MAP rt).slugs.length →
        (buildQueryAttempts rt opts).getD (2 * k) default =
          subjPairAttempt ((RESOURCE_MAP rt).slugs.getD k "") t ∧
        (buildQueryAttempts rt opts).getD (2 * k + 1) default =
          subjAloneAttempt ((RESOURCE_MAP rt).slugs.getD k "")) ∧
      (buildQueryAttempts rt opts).getD (2 * (RESOURCE_MAP rt).slugs.length) default =
        kwPairAttempt (RESOURCE_MAP rt) t ∧
      (buildQueryAttempts rt opts).getD
          (2 * (RESOURCE_MAP rt).slugs.length + 1) default =
        kwAloneAttempt (RESOURCE_MAP rt) ∧
      (buildQueryAttempts rt opts).length = 2 * (RESOURCE_MAP rt).slugs.length + 2) := by
  constructor
  · rcases heff : effSubject opts.subjectSlug with - | t
    · refine ⟨(RESOURCE_MAP rt).slugs.flatMap (fun slug => [subjAloneAttempt slug]),
        [kwAloneAttempt (RESOURCE_MAP rt)], ?_, ?_, ?_⟩
      · unfold buildQueryAttempts
        rw [buildQueryAttemptsCore_none _ _ heff]
      · intro a ha
        simp only [List.mem_flatMap] at ha
        obtain ⟨slug, -, ha⟩ := ha
        simp only [List.mem_singleton] at ha
        subst ha
        rfl
      · intro b hb
        simp only [List.mem_singleton] at hb
        subst hb
        rfl
    · refine ⟨(RESOURCE_MAP rt).slugs.flatMap
          (fun slug => [subjPairAttempt slug t, subjAloneAttempt slug]),
        [kwPairAttempt (RESOURCE_MAP rt) t, kwAloneAttempt (RESOURCE_MAP rt)], ?_, ?_, ?_⟩
      · unfold buildQueryAttempts
        rw [buildQueryAttemptsCore_some _ _ t heff]
      · intro a ha
        simp only [List.mem_flatMap] at ha
        obtain ⟨slug, -, ha⟩ := ha
        simp only [List.mem_cons, List.mem_singleton, List.not_mem_nil, or_false] at ha
        rcases ha with rfl | rfl <;> rfl
      · intro b hb
        simp only [List.mem_cons, List.mem_singleton, List.not_mem_nil, or_false] at hb
        rcases hb with rfl | rfl <;> rfl
  · intro t heff
    have hplan : buildQueryAttempts rt opts =
        (RESOURCE_MAP rt).slugs.flatMap
          (fun slug => [subjPairAttempt slug t, subjAloneAttempt slug]) ++
        [kwPairAttempt (RESOURCE_MAP rt) t, kwAloneAttempt (RESOURCE_MAP rt)] := by
      unfold buildQueryAttempts
      exact buildQueryAttemptsCore_some _ _ t heff
    have hsublen : ((RESOURCE_MAP rt).slugs.flatMap
        (fun slug => [subjPairAttempt slug t, subjAloneAttempt slug])).length =
        2 * (RESOURCE_MAP rt).slugs.length := length_flatMap_pair _ _ _
    refine ⟨?_, ?_, ?_, ?_⟩
    · intro k hk
      obtain ⟨h1, h2⟩ := flatMap_pair_getD (fun slug => subjPairAttempt slug t)
        subjAloneAttempt "" (RESOURCE_MAP rt).slugs k hk
      constructor
      · rw [hplan, List.getD_append _ _ _ _ (by rw [hsublen]; omega), h1]
      · rw [hplan, List.getD_append _ _ _ _ (by rw [hsublen]; omega), h2]
    · rw [hplan, List.getD_append_right _ _ _ _ (by rw [hsublen]), hsublen]
      simp
    · rw [hplan, List.getD_append_right _ _ _ _ (by rw [hsublen]; omega), hsublen]
      have : 2 * (RESOURCE_MAP rt).slugs.length + 1 -
          2 * (RESOURCE_MAP rt).slugs.length = 1 := by omega
      rw [this]
      rfl
    · rw [hplan, List.length_append, hsublen]
      rfl

/-- C10: a `subjectSlug` that is empty or all-whitespace yields exactly the
same attempt list as no `subjectSlug` at all: the subject is trimmed once
and a trimmed-empty subject is treated as absent. -/
theorem buildQueryAttempts_blank_subject {α : Type} (rt : ResourceTypeKey)
    (opts : SearchOptions α) (s : String) (h : jsTrim s = "") :
    buildQueryAttempts rt { opts with subjectSlug := some s } =
      buildQueryAttempts rt { opts with subjectSlug := none } := by
  have h1 : effSubject (SearchOptions.subjectSlug
      { opts with subjectSlug := some s }) = none := by
    simp [effSubject, h]
  have h2 : effSubject (SearchOptions.subjectSlug
      ({ opts with subjectSlug := none } : SearchOptions α)) = none := rfl
  unfold buildQueryAttempts
  rw [buildQueryAttemptsCore_none _ _ h1, buildQueryAttemptsCore_none _ _ h2]

/-- C1: if attempt `k` (0-based here; `k+1` 1-indexed) is, within the first
`min(maxAttempts, plan length)` attempts, the first whose post-filter
result count reaches `minResults` (default 6), then `runSmartSearch`
returns exactly that attempt's filtered documents, the 1-based index
`k+1`, that attempt's description and request URL, and the request trace
stops at attempt `k`: no request is issued for any later attempt.  The
threshold test uses the post-filter count (`attemptQualifies` is defined
on the filtered documents), not the raw response count. -/
theorem runSmartSearch_first_meeting_threshold {α : Type} (rt : ResourceTypeKey)
    (opts : SearchOptions α) (env : Nat → FetchResult α) (k : Nat)
    (hk : k < smartMax rt opts)
    (hq : attemptQualifies env (smartMin opts) opts.clientSideFilter k = true)
    (hprev : ∀ j, j < k →
      attemptQualifies env (smartMin opts) opts.clientSideFilter j = false) :
    runSmartSearch rt opts env =
      ({ docs := attemptDocs env opts.clientSideFilter k, attempt := k + 1,
         description := ((buildQueryAttempts rt opts).getD k default).description,
         url := some (attemptUrl ((buildQueryAttempts rt opts).getD k default)
           (smartLimit opts)) },
       ((buildQueryAttempts rt opts).take (k + 1)).map
         (fun a => attemptUrl a (smartLimit opts))) := by
  have hMle : smartMax rt opts ≤ (buildQueryAttempts rt opts).length :=
    Nat.min_le_right _ _
  have hlen : ((buildQueryAttempts rt opts).take (smartMax rt opts)).length =
      smartMax rt opts := by
    rw [List.length_take, Nat.min_eq_left hMle]
  unfold runSmartSearch
  rw [runAttempts_firstQualify env (smartLimit opts) (smartMin opts) (smartMax rt opts)
    opts.clientSideFilter ((buildQueryAttempts rt opts).take (smartMax rt opts)) 0 [] k
    (by rw [hlen]; exact hk)
    (by simpa using hq)
    (by intro j hj; simpa using hprev j hj)]
  rw [getD_take_of_lt hk, List.take_take, Nat.min_eq_left (by omega : k + 1 ≤ smartMax rt opts)]
  simp

/-- C2: if no executed attempt reaches the threshold, `runSmartSearch`
returns the last executed attempt's filtered result list (empty when that
attempt failed), with the attempt field equal to the number of attempts
executed (`min(maxAttempts, plan length)`), description `fallback`, and no
request URL. -/
theorem runSmartSearch_fallback {α : Type} (rt : ResourceTypeKey)
    (opts : SearchOptions α) (env : Nat → FetchResult α)
    (hpos : 0 < smartMax rt opts)
    (hnone : ∀ j, j < smartMax rt opts →
      attemptQualifies env (smartMin opts) opts.clientSideFilter j = false) :
    runSmartSearch rt opts env =
      ({ docs := attemptDocs env opts.clientSideFilter (smartMax rt opts - 1),
         attempt := smartMax rt opts, description := "fallback", url := none },
       ((buildQueryAttempts rt opts).take (smartMax rt opts)).map
         (fun a => attemptUrl a (smartLimit opts))) := by
  have hMle : smartMax rt opts ≤ (buildQueryAttempts rt opts).length :=
    Nat.min_le_right _ _
  have hlen : ((buildQueryAttempts rt opts).take (smartMax rt opts)).length =
      smartMax rt opts := by
    rw [List.length_take, Nat.min_eq_left hMle]
  unfold runSmartSearch
  rw [runAttempts_noneQualify env (smartLimit opts) (smartMin opts) (smartMax rt opts)
    opts.clientSideFilter ((buildQueryAttempts rt opts).take (smartMax rt opts)) 0 []
    (by intro j hj; rw [hlen] at hj; simpa using hnone j hj)]
  rw [hlen, if_neg (by omega)]
  simp

/-- C5: `runSmartSearch` never issues more requests than
`min(maxAttempts, plan length)`: an absent `maxAttempts` defaults to the
full plan length, an oversized one is capped, and the request trace is
exactly one URL per executed attempt, the executed attempts being a prefix
of the plan. -/
theorem runSmartSearch_request_cap {α : Type} (rt : ResourceTypeKey)
    (opts : SearchOptions α) (env : Nat → FetchResult α) :
    (runSmartSearch rt opts env).2.length ≤
      Nat.min (opts.maxAttempts.getD (buildQueryAttempts rt opts).length)
        (buildQueryAttempts rt opts).length ∧
    (opts.maxAttempts = none →
      smartMax rt opts = (buildQueryAttempts rt opts).length) ∧
    (∃ n, n ≤ smartMax rt opts ∧
      (runSmartSearch rt opts env).2 =
        ((buildQueryAttempts rt opts).take n).map
          (fun a => attemptUrl a (smartLimit opts))) := by
  have hMle : smartMax rt opts ≤ (buildQueryAttempts rt opts).length :=
    Nat.min_le_right _ _
  have hlen : ((buildQueryAttempts rt opts).take (smartMax rt opts)).length =
      smartMax rt opts := by
    rw [List.length_take, Nat.min_eq_left hMle]
  obtain ⟨n, hn, hlog⟩ := runAttempts_log env (smartLimit opts) (smartMin opts)
    (smartMax rt opts) opts.clientSideFilter
    ((buildQueryAttempts rt opts).take (smartMax rt opts)) 0 []
  rw [hlen] at hn
  have hrs : (runSmartSearch rt opts env).2 =
      (((buildQueryAttempts rt opts).take (smartMax rt opts)).take n).map
        (fun a => attemptUrl a (smartLimit opts)) := by
    unfold runSmartSearch
    exact hlog
  rw [List.take_take, Nat.min_eq_left hn] at hrs
  refine ⟨?_, ?_, ⟨n, hn, hrs⟩⟩
  · show (runSmartSearch rt opts env).2.length ≤ smartMax rt opts
    rw [hrs, List.length_map, List.length_take]
    omega
  · intro h
    unfold smartMax
    rw [h]
    simp

/-- C7: an attempt whose fetch yields a non-success response or a
network/parse failure is absorbed: the loop records an empty last-seen
result set, issues that attempt's single request, and continues with the
remaining attempts; no error is surfaced, and when every executed attempt
fails the call still returns an ordinary fallback outcome with an empty
document list. -/
theorem runSmartSearch_absorbs_failures {α : Type} (env : Nat → FetchResult α)
    (L mn M : Nat) (f : Option (α → Bool)) (a : QueryAttempt)
    (rest : List QueryAttempt) (i : Nat) (last : List α)
    (rt : ResourceTypeKey) (opts : SearchOptions α) (env2 : Nat → FetchResult α) :
    ((env i = FetchResult.notOk ∨ env i = FetchResult.netFail) →
      runAttempts env L mn M f (a :: rest) i last =
        ((runAttempts env L mn M f rest (i + 1) []).1,
         attemptUrl a L :: (runAttempts env L mn M f rest (i + 1) []).2)) ∧
    ((∀ j, j < smartMax rt opts →
        env2 j = FetchResult.notOk ∨ env2 j = FetchResult.netFail) →
      runSmartSearch rt opts env2 =
        ({ docs := [], attempt := smartMax rt opts, description := "fallback",
           url := none },
         ((buildQueryAttempts rt opts).take (smartMax rt opts)).map
           (fun a => attemptUrl a (smartLimit opts)))) := by
  constructor
  · rintro (h | h)
    · exact runAttempts_cons_notOk h a rest last
    · exact runAttempts_cons_netFail h a rest last
  · intro hfail
    have hMle : smartMax rt opts ≤ (buildQueryAttempts rt opts).length :=
      Nat.min_le_right _ _
    have hlen : ((buildQueryAttempts rt opts).take (smartMax rt opts)).length =
        smartMax rt opts := by
      rw [List.length_take, Nat.min_eq_left hMle]
    have hnone : ∀ j, j < smartMax rt opts →
        attemptQualifies env2 (smartMin opts) opts.clientSideFilter j = false := by
      intro j hj
      rcases hfail j hj with h | h
      · exact attemptQualifies_notOk h
      · exact attemptQualifies_netFail h
    unfold runSmartSearch
    rw [runAttempts_noneQualify env2 (smartLimit opts) (smartMin opts)
      (smartMax rt opts) opts.clientSideFilter
      ((buildQueryAttempts rt opts).take (smartMax rt opts)) 0 []
      (by intro j hj; rw [hlen] at hj; simpa using hnone j hj)]
    rw [hlen]
    rcases Nat.eq_zero_or_pos (smartMax rt opts) with hM | hM
    · rw [hM]
      simp
    · rw [if_neg (by omega)]
      have hlast : smartMax rt opts - 1 < smartMax rt opts := by omega
      rcases hfail (smartMax rt opts - 1) hlast with h | h
      · rw [Nat.zero_add, attemptDocs_notOk h]
      · rw [Nat.zero_add, attemptDocs_netFail h]

/-- C6: a category string with no entry in the profile table makes the call
fail with the unknown-category error, raised by the plan builder before any
network activity (the error result is the same for every environment and
carries no request trace); for a category that has an entry the call never
errors. -/
theorem runSmartSearchJS_unknown_category {α : Type} (cat : String)
    (opts : SearchOptions α) (env env2 : Nat → FetchResult α) :
    (RESOURCE_MAP_get cat = none →
      runSmartSearchJS cat opts env = Except.error JsError.unknownCategory ∧
      runSmartSearchJS cat opts env = runSmartSearchJS cat opts env2) ∧
    (∀ m, RESOURCE_MAP_get cat = some m →
      runSmartSearchJS cat opts env =
        Except.ok (runAttempts env (smartLimit opts) (smartMin opts)
          (Nat.min (opts.maxAttempts.getD (buildQueryAttemptsCore m opts).length)
            (buildQueryAttemptsCore m opts).length) opts.clientSideFilter
          ((buildQueryAttemptsCore m opts).take
            (Nat.min (opts.maxAttempts.getD (buildQueryAttemptsCore m opts).length)
              (buildQueryAttemptsCore m opts).length)) 0 [])) := by
  constructor
  · intro h
    constructor <;>
      simp only [runSmartSearchJS, buildQueryAttemptsJS, h]
  · intro m h
    simp only [runSmartSearchJS, buildQueryAttemptsJS, h]

theorem slugs_no_plus (rt : ResourceTypeKey) :
    ∀ slug ∈ (RESOURCE_MAP rt).slugs, '+' ∉ slug.data := by
  cases rt <;> decide

/-- C8 counterexample: with subject `c+java` (trimmed, non-empty, not
containing any character mangled by the URI round-trip except `+`), the
first attempt's request carries three `subject` parameters, not the two the
claim asserts: the decoded query is split at every `+`, so the subject
`c+java` is broken into `c` and `java`. -/
theorem attemptParams_plus_subject_counterexample :
    attemptParams
      ((buildQueryAttempts ResourceTypeKey.study_guide
        ({ subjectSlug := some "c+java" } : SearchOptions Nat)).getD 0 default) 20 =
      [("subject", "study guides"), ("subject", "c"), ("subject", "java"),
       ("limit", "20")] := by
  rfl

/-- C8 amended: every executed attempt maps to exactly one request URL
built from `attemptParams`.  Provided the trimmed subject token contains no
`+` character, a slug-plus-subject attempt carries exactly two `subject`
parameters (the slug and the original trimmed subject, unmangled) plus the
configured limit, a slug-alone attempt carries one `subject` parameter plus
the limit, and a keyword attempt carries a single free-text `q` parameter
holding the OR'd quoted keyword phrase (with the subject token appended for
the combined keyword attempt) plus the limit.  A `+` in the subject instead
splits it into additional `subject` parameters. -/
theorem attemptParams_amended {α : Type} (rt : ResourceTypeKey)
    (opts : SearchOptions α) :
    (∀ t, effSubject opts.subjectSlug = some t → '+' ∉ t.data →
      (∀ k, k < (RESOURCE_MAP rt).slugs.length →
        attemptParams ((buildQueryAttempts rt opts).getD (2 * k) default)
            (smartLimit opts) =
          [("subject", (RESOURCE_MAP rt).slugs.getD k ""), ("subject", t),
           ("limit", toString (smartLimit opts))] ∧
        attemptParams ((buildQueryAttempts rt opts).getD (2 * k + 1) default)
            (smartLimit opts) =
          [("subject", (RESOURCE_MAP rt).slugs.getD k ""),
           ("limit", toString (smartLimit opts))]) ∧
      attemptParams ((buildQueryAttempts rt opts).getD
          (2 * (RESOURCE_MAP rt).slugs.length) default) (smartLimit opts) =
        [("q", kwQuotedPhrase (RESOURCE_MAP rt) ++ " " ++ t),
         ("limit", toString (smartLimit opts))] ∧
      attemptParams ((buildQueryAttempts rt opts).getD
          (2 * (RESOURCE_MAP rt).slugs.length + 1) default) (smartLimit opts) =
        [("q", kwQuotedPhrase (RESOURCE_MAP rt)),
         ("limit", toString (smartLimit opts))]) ∧
    (effSubject opts.subjectSlug = none →
      (∀ k, k < (RESOURCE_MAP rt).slugs.length →
        attemptParams ((buildQueryAttempts rt opts).getD k default)
            (smartLimit opts) =
          [("subject", (RESOURCE_MAP rt).slugs.getD k ""),
           ("limit", toString (smartLimit opts))]) ∧
      attemptParams ((buildQueryAttempts rt opts).getD
          ((RESOURCE_MAP rt).slugs.length) default) (smartLimit opts) =
        [("q", kwQuotedPhrase (RESOURCE_MAP rt)),
         ("limit", toString (smartLimit opts))]) := by
  constructor
  · intro t heff hplus
    obtain ⟨horder, hrest⟩ := buildQueryAttempts_order rt opts
    obtain ⟨hsub, hkw1, hkw2, -⟩ := hrest t heff
    refine ⟨?_, ?_, ?_⟩
    · intro k hk
      have hmem : (RESOURCE_MAP rt).slugs.getD k "" ∈ (RESOURCE_MAP rt).slugs := by
        rw [List.getD_eq_getElem _ "" hk]
        exact List.getElem_mem hk
      have hslug : '+' ∉ ((RESOURCE_MAP rt).slugs.getD k "").data :=
        slugs_no_plus rt _ hmem
      obtain ⟨h1, h2⟩ := hsub k hk
      rw [h1, h2]
      exact ⟨attemptParams_subject_pair _ t _ _ hslug hplus,
        attemptParams_subject_single _ _ _ hslug⟩
    · rw [hkw1]
      exact attemptParams_keyword _ _ _
    · rw [hkw2]
      exact attemptParams_keyword _ _ _
  · intro heff
    have hplan : buildQueryAttempts rt opts =
        (RESOURCE_MAP rt).slugs.flatMap (fun slug => [subjAloneAttempt slug]) ++
        [kwAloneAttempt (RESOURCE_MAP rt)] := by
      unfold buildQueryAttempts
      exact buildQueryAttemptsCore_none _ _ heff
    have hsublen : ((RESOURCE_MAP rt).slugs.flatMap
        (fun slug => [subjAloneAttempt slug])).length =
        (RESOURCE_MAP rt).slugs.length := length_flatMap_single _ _
    constructor
    · intro k hk
      have hmem : (RESOURCE_MAP rt).slugs.getD k "" ∈ (RESOURCE_MAP rt).slugs := by
        rw [List.getD_eq_getElem _ "" hk]
        exact List.getElem_mem hk
      have hslug : '+' ∉ ((RESOURCE_MAP rt).slugs.getD k "").data :=
        slugs_no_plus rt _ hmem
      rw [hplan, List.getD_append _ _ _ _ (by rw [hsublen]; omega),
        flatMap_single_getD subjAloneAttempt "" _ k hk]
      exact attemptParams_subject_single _ _ _ hslug
    · rw [hplan, List.getD_append_right _ _ _ _ (by rw [hsublen]), hsublen]
      simp only [Nat.sub_self, List.getD_cons_zero]
      exact attemptParams_keyword _ _ _

/-- C9 (cancellation, recorded as a code bug): the retriever has no
cancellation input at all — `SearchOptions` carries no abort signal and the
loop's fetch is a total function of the environment — so a cancelled caller
cannot abort the in-flight request or suppress the threshold evaluation;
the invocation always produces a complete outcome, demonstrated here on a
concrete run that returns a full first-attempt success. -/
theorem runSmartSearch_no_cancellation :
    runSmartSearch ResourceTypeKey.study_guide ({} : SearchOptions Nat)
      (fun _ => FetchResult.ok (some [0, 1, 2, 3, 4, 5])) =
      ({ docs := [0, 1, 2, 3, 4, 5], attempt := 1,
         description := "subject:study guides",
         url := some "https://openlibrary.org/search.json?subject=study+guides&limit=20" },
       ["https://openlibrary.org/search.json?subject=study+guides&limit=20"]) := by
  rfl

/-! ## Witnesses -/

/-- Environment for the C1 witness: the first two attempts return three
documents each, every later attempt returns ten. -/
def c1Env : Nat → FetchResult Nat := fun j =>
  if j < 2 then FetchResult.ok (some [1, 2, 3])
  else FetchResult.ok (some [1, 2, 3, 4, 5, 6, 7, 8, 9, 10])

/-- Options for the C1 witness: `maxAttempts` 3, everything else default. -/
def c1Opts : SearchOptions Nat := { maxAttempts := some 3 }

theorem runSmartSearch_first_meeting_threshold_witness :
    2 < smartMax ResourceTypeKey.past_papers c1Opts ∧
    runSmartSearch ResourceTypeKey.past_papers c1Opts c1Env =
      ({ docs := attemptDocs c1Env c1Opts.clientSideFilter 2, attempt := 2 + 1,
         description := ((buildQueryAttempts ResourceTypeKey.past_papers
           c1Opts).getD 2 default).description,
         url := some (attemptUrl ((buildQueryAttempts ResourceTypeKey.past_papers
           c1Opts).getD 2 default) (smartLimit c1Opts)) },
       ((buildQueryAttempts ResourceTypeKey.past_papers c1Opts).take (2 + 1)).map
         (fun a => attemptUrl a (smartLimit c1Opts))) :=
  ⟨by decide,
   runSmartSearch_first_meeting_threshold ResourceTypeKey.past_papers c1Opts c1Env 2
     (by decide) (by decide) (by decide)⟩

/-- Environment for the C2 witness: every attempt returns zero documents. -/
def c2Env : Nat → FetchResult Nat := fun _ => FetchResult.ok (some [])

/-- Options for the C2 witness: subject `science`, everything else default. -/
def c2Opts : SearchOptions Nat := { subjectSlug := some "science" }

theorem runSmartSearch_fallback_witness :
    runSmartSearch ResourceTypeKey.study_guide c2Opts c2Env =
      ({ docs := attemptDocs c2Env c2Opts.clientSideFilter
           (smartMax ResourceTypeKey.study_guide c2Opts - 1),
         attempt := smartMax ResourceTypeKey.study_guide c2Opts,
         description := "fallback", url := none },
       ((buildQueryAttempts ResourceTypeKey.study_guide c2Opts).take
         (smartMax ResourceTypeKey.study_guide c2Opts)).map
         (fun a => attemptUrl a (smartLimit c2Opts))) :=
  runSmartSearch_fallback ResourceTypeKey.study_guide c2Opts c2Env
    (by decide) (by decide)

/-- Options for the C4 witness. -/
def c4Opts : SearchOptions Nat := { subjectSlug := some "science" }

theorem buildQueryAttempts_order_witness :
    (buildQueryAttempts ResourceTypeKey.study_guide c4Opts).getD 0 default =
      subjPairAttempt "study guides" "science" ∧
    (buildQueryAttempts ResourceTypeKey.study_guide c4Opts).getD 1 default =
      subjAloneAttempt "study guides" := by
  have h := ((buildQueryAttempts_order ResourceTypeKey.study_guide c4Opts).2
    "science" rfl).1 0 (by decide)
  exact ⟨h.1, h.2⟩

/-- Environment for the C5 witness: every attempt fails. -/
def c5Env : Nat → FetchResult Nat := fun _ => FetchResult.notOk

theorem runSmartSearch_request_cap_witness :
    (runSmartSearch ResourceTypeKey.textbook ({} : SearchOptions Nat) c5Env).2.length ≤
      Nat.min ((({} : SearchOptions Nat)).maxAttempts.getD
          (buildQueryAttempts ResourceTypeKey.textbook ({} : SearchOptions Nat)).length)
        (buildQueryAttempts ResourceTypeKey.textbook ({} : SearchOptions Nat)).length ∧
    smartMax ResourceTypeKey.textbook ({} : SearchOptions Nat) =
      (buildQueryAttempts ResourceTypeKey.textbook ({} : SearchOptions Nat)).length ∧
    (∃ n, n ≤ smartMax ResourceTypeKey.textbook ({} : SearchOptions Nat) ∧
      (runSmartSearch ResourceTypeKey.textbook ({} : SearchOptions Nat) c5Env).2 =
        ((buildQueryAttempts ResourceTypeKey.textbook ({} : SearchOptions Nat)).take n).map
          (fun a => attemptUrl a (smartLimit ({} : SearchOptions Nat)))) := by
  obtain ⟨h1, h2, h3⟩ :=
    runSmartSearch_request_cap ResourceTypeKey.textbook ({} : SearchOptions Nat) c5Env
  exact ⟨h1, h2 rfl, h3⟩

/-- Environment for the C6 witness. -/
def c6Env : Nat → FetchResult Nat := fun _ => FetchResult.netFail

theorem runSmartSearchJS_unknown_category_witness :
    runSmartSearchJS "poetry" ({} : SearchOptions Nat) c6Env =
      Except.error JsError.unknownCategory ∧
    runSmartSearchJS "study_guide" ({} : SearchOptions Nat) c6Env =
      Except.ok (runAttempts c6Env (smartLimit ({} : SearchOptions Nat))
        (smartMin ({} : SearchOptions Nat))
        (Nat.min ((({} : SearchOptions Nat)).maxAttempts.getD
            (buildQueryAttemptsCore (RESOURCE_MAP ResourceTypeKey.study_guide)
              ({} : SearchOptions Nat)).length)
          (buildQueryAttemptsCore (RESOURCE_MAP ResourceTypeKey.study_guide)
            ({} : SearchOptions Nat)).length)
        (({} : SearchOptions Nat)).clientSideFilter
        ((buildQueryAttemptsCore (RESOURCE_MAP ResourceTypeKey.study_guide)
          ({} : SearchOptions Nat)).take
          (Nat.min ((({} : SearchOptions Nat)).maxAttempts.getD
              (buildQueryAttemptsCore (RESOURCE_MAP ResourceTypeKey.study_guide)
                ({} : SearchOptions Nat)).length)
            (buildQueryAttemptsCore (RESOURCE_MAP ResourceTypeKey.study_guide)
              ({} : SearchOptions Nat)).length)) 0 []) :=
  ⟨((runSmartSearchJS_unknown_category "poetry" ({} : SearchOptions Nat)
      c6Env c6Env).1 rfl).1,
   (runSmartSearchJS_unknown_category "study_guide" ({} : SearchOptions Nat)
      c6Env c6Env).2 (RESOURCE_MAP ResourceTypeKey.study_guide) rfl⟩

/-- Environment for the C7 witness: every attempt's request fails. -/
def c7Env : Nat → FetchResult Nat := fun _ => FetchResult.notOk

/-- A sample attempt for the C7 witness. -/
def c7Attempt : QueryAttempt := subjAloneAttempt "study guides"

theorem runSmartSearch_absorbs_failures_witness :
    runAttempts c7Env 20 6 1 none [c7Attempt] 0 [] =
      ((runAttempts c7Env 20 6 1 none [] (0 + 1) []).1,
       attemptUrl c7Attempt 20 :: (runAttempts c7Env 20 6 1 none [] (0 + 1) []).2) ∧
    runSmartSearch ResourceTypeKey.study_guide ({} : SearchOptions Nat) c7Env =
      ({ docs := [], attempt := smartMax ResourceTypeKey.study_guide ({} : SearchOptions Nat),
         description := "fallback", url := none },
       ((buildQueryAttempts ResourceTypeKey.study_guide ({} : SearchOptions Nat)).take
         (smartMax ResourceTypeKey.study_guide ({} : SearchOptions Nat))).map
         (fun a => attemptUrl a (smartLimit ({} : SearchOptions Nat)))) := by
  obtain ⟨h1, h2⟩ := runSmartSearch_absorbs_failures c7Env 20 6 1 none c7Attempt [] 0 []
    ResourceTypeKey.study_guide ({} : SearchOptions Nat) c7Env
  exact ⟨h1 (Or.inl rfl), h2 (fun j hj => Or.inl rfl)⟩

/-- Options for the C8 witness. -/
def c8Opts : SearchOptions Nat := { subjectSlug := some "science" }

theorem attemptParams_amended_witness :
    attemptParams ((buildQueryAttempts ResourceTypeKey.study_guide c8Opts).getD 0 default)
        (smartLimit c8Opts) =
      [("subject", "study guides"), ("subject", "science"), ("limit", "20")] := by
  have h := ((attemptParams_amended ResourceTypeKey.study_guide c8Opts).1
    "science" rfl (by decide)).1 0 (by decide)
  exact h.1

theorem buildQueryAttempts_blank_subject_witness :
    buildQueryAttempts ResourceTypeKey.study_guide
        ({ subjectSlug := some "   " } : SearchOptions Nat) =
      buildQueryAttempts ResourceTypeKey.study_guide
        ({ subjectSlug := none } : SearchOptions Nat) :=
  buildQueryAttempts_blank_subject ResourceTypeKey.study_guide
    ({} : SearchOptions Nat) "   " (by decide)

end BookFinder
